import Mathlib

/-!
Verification of the BambuBeacon event-state engine (`src/BambuMqttClient.cpp`,
`src/BambuMqttClient.h`): the bounded HMS alert store with upsert / eviction /
expiry semantics, severity classification and aggregation, and the
subscribe-once connection behaviour.  All definitions are shallow embeddings of
the C++ source; machine integers are modelled as `Nat` with explicit reduction
modulo `2^32` where the source uses `uint32_t` arithmetic.
-/

namespace BambuBeacon

/-- Severity enumeration from `BambuMqttClient.h`: `None=0, Info, Warning, Error, Fatal`. -/
inductive Severity where
  | None
  | Info
  | Warning
  | Error
  | Fatal
deriving DecidableEq, Repr

/-- Numeric rank of a severity, matching the `uint8_t` value of the C++ enum. -/
def Severity.rank : Severity → Nat
  | .None => 0
  | .Info => 1
  | .Warning => 2
  | .Error => 3
  | .Fatal => 4

/-- `2^32`, the modulus of `uint32_t` arithmetic. -/
def U32 : Nat := 4294967296

/-- Wrapping `uint32_t` subtraction `a - b`, as in `nowMs - _events[i].lastSeenMs`. -/
def wsub (a b : Nat) : Nat := (a % U32 + U32 - b % U32) % U32

/-- One slot of the HMS store, `struct HmsEvent` of `BambuMqttClient.h`. -/
structure HmsEvent where
  full : Nat
  attr : Nat
  code : Nat
  codeStr : String
  severity : Severity
  firstSeenMs : Nat
  lastSeenMs : Nat
  count : Nat
  active : Bool
deriving DecidableEq, Repr

/-- The default-initialised slot (`HmsEvent` member initialisers in the header). -/
def emptyEvent : HmsEvent :=
  { full := 0, attr := 0, code := 0, codeStr := "", severity := .None,
    firstSeenMs := 0, lastSeenMs := 0, count := 0, active := false }

/-- The freshly allocated store: `new HmsEvent[_eventsCap]` with `_eventsCap = 20`. -/
def emptyStore : List HmsEvent := List.replicate 20 emptyEvent

/-- Packed 64-bit identity `(uint64_t(attr) << 32) | uint64_t(code)`. -/
def packFull (attr code : Nat) : Nat := (attr % U32) * U32 + code % U32

/-- `severityFromCode`: switch on `(uint16_t)(code >> 16)`. -/
def severityFromCode (code : Nat) : Severity :=
  match code % U32 / 65536 with
  | 1 => .Fatal
  | 2 => .Error
  | 3 => .Warning
  | 4 => .Info
  | _ => .None

/-- One uppercase hex digit. -/
def hexDigit (n : Nat) : Char :=
  if n < 10 then Char.ofNat (48 + n) else Char.ofNat (55 + n)

/-- Four-digit uppercase hex rendering of a `uint16_t` value (`%04X`). -/
def hex4 (n : Nat) : String :=
  String.mk [hexDigit (n / 4096 % 16), hexDigit (n / 256 % 16),
             hexDigit (n / 16 % 16), hexDigit (n % 16)]

/-- `formatHmsCodeStr`: render `HMS_aaaa_bbbb_cccc_dddd` from the packed identity. -/
def formatHmsCodeStr (full : Nat) : String :=
  "HMS_" ++ hex4 (full / 281474976710656 % 65536) ++ "_" ++ hex4 (full / U32 % 65536)
    ++ "_" ++ hex4 (full / 65536 % 65536) ++ "_" ++ hex4 (full % 65536)

/-- Index of the first slot satisfying `p`, mirroring the linear scans of the source. -/
def findIdxA (p : HmsEvent → Bool) : List HmsEvent → Option Nat
  | [] => none
  | e :: es => if p e then some 0 else (findIdxA p es).map (· + 1)

/-- Read slot `i` of the store. -/
def nthEvent : List HmsEvent → Nat → Option HmsEvent
  | [], _ => none
  | e :: _, 0 => some e
  | _ :: es, n + 1 => nthEvent es n

/-- Replace slot `i` of the store by `f` of its old value. -/
def modifyIdx (f : HmsEvent → HmsEvent) : Nat → List HmsEvent → List HmsEvent
  | _, [] => []
  | 0, e :: es => f e :: es
  | n + 1, e :: es => e :: modifyIdx f n es

/-- The store slots paired with their indices, starting at `n`. -/
def enumFromE (n : Nat) : List HmsEvent → List (Nat × HmsEvent)
  | [] => []
  | e :: es => (n, e) :: enumFromE (n + 1) es

/-- The best-age scan loop of `upsertEvent`: walk indexed slots keeping the running
best `(bestAge, slot)` pair, taking a slot satisfying `p` whenever `age >= bestAge`. -/
def scanBest (now : Nat) (p : HmsEvent → Bool) :
    List (Nat × HmsEvent) → Nat × Option Nat → Nat × Option Nat
  | [], acc => acc
  | (i, e) :: rest, acc =>
    if p e then
      if acc.1 ≤ wsub now e.lastSeenMs then scanBest now p rest (wsub now e.lastSeenMs, some i)
      else scanBest now p rest acc
    else scanBest now p rest acc

/-- Index of the slot with maximal `nowMs - lastSeenMs` among slots satisfying `p`
(later index wins ties), `none` when no slot satisfies `p`. -/
def scanOldest (now : Nat) (p : HmsEvent → Bool) (es : List HmsEvent) : Option Nat :=
  (scanBest now p (enumFromE 0 es) (0, none)).2

/-- Slot selection of `upsertEvent` when no slot matches the identity: first free
slot (`full == 0`); otherwise oldest inactive slot; otherwise globally oldest slot. -/
def chooseSlot (now : Nat) (es : List HmsEvent) : Option Nat :=
  match findIdxA (fun e => e.full == 0) es with
  | some i => some i
  | none =>
    match scanOldest now (fun e => !e.active) es with
    | some i => some i
    | none => scanOldest now (fun _ => true) es

/-- The refresh applied by `upsertEvent` to a slot whose identity already matches:
`lastSeenMs = nowMs; count++; active = true`. -/
def refreshEvent (now : Nat) (e : HmsEvent) : HmsEvent :=
  { e with lastSeenMs := now % U32, count := (e.count + 1) % U32, active := true }

/-- The fully initialised slot written by `upsertEvent` on allocation. -/
def newEvent (attr code now : Nat) : HmsEvent :=
  { full := packFull attr code, attr := attr % U32, code := code % U32,
    codeStr := formatHmsCodeStr (packFull attr code),
    severity := severityFromCode code,
    firstSeenMs := now % U32, lastSeenMs := now % U32,
    count := 1, active := true }

/-- `upsertEvent(attr, code, nowMs)`: refresh the first slot holding the packed
identity, else write a fresh event into the slot chosen by `chooseSlot`. -/
def upsertEvent (attr code now : Nat) (es : List HmsEvent) : List HmsEvent :=
  match findIdxA (fun e => e.full == packFull attr code) es with
  | some i => modifyIdx (refreshEvent now) i es
  | none =>
    match chooseSlot now es with
    | some i => modifyIdx (fun _ => newEvent attr code now) i es
    | none => es

/-- The per-slot body of the `expireEvents` loop: skip free slots, deactivate an
active slot with `nowMs - lastSeenMs > t`. -/
def expireStep (now t : Nat) (e : HmsEvent) : HmsEvent :=
  if e.full ≠ 0 ∧ e.active = true ∧ wsub now e.lastSeenMs > t then
    { e with active := false }
  else e

/-- `expireEvents(nowMs)` with the stored TTL passed explicitly, where a zero
stored TTL falls back to 20000 (`_hmsTtlMs ? _hmsTtlMs : 20000`). -/
def expireEvents (now ttl : Nat) (es : List HmsEvent) : List HmsEvent :=
  es.map (expireStep now (if ttl = 0 then 20000 else ttl))

/-- The loop body of `computeTopSeverity`: keep the running top unless the slot is
active with a strictly higher severity rank. -/
def sevStep (top : Severity) (e : HmsEvent) : Severity :=
  if e.active && top.rank < e.severity.rank then e.severity else top

/-- `computeTopSeverity`: maximum severity rank over active slots, `None` base. -/
def computeTopSeverity (es : List HmsEvent) : Severity :=
  es.foldl sevStep Severity.None

/-- `topSeverity()` forwards to `computeTopSeverity`. -/
def topSeverity (es : List HmsEvent) : Severity :=
  computeTopSeverity es

/-- `hasProblem()`: `topSeverity() >= Warning` by numeric rank. -/
def hasProblem (es : List HmsEvent) : Bool :=
  Severity.Warning.rank ≤ (topSeverity es).rank

/-- `countActiveTotal()`: number of active slots. -/
def countActiveTotal (es : List HmsEvent) : Nat :=
  es.foldl (fun n e => if e.active then n + 1 else n) 0

/-- `getActiveEvents(out, maxOut)`: up to `maxOut` active slots in slot order. -/
def getActiveEvents (maxOut : Nat) (es : List HmsEvent) : List HmsEvent :=
  if maxOut = 0 then [] else (es.filter (fun e => e.active)).take maxOut

/-- Apply a sequence of `upsertEvent` calls `(attr, code, now)` in order. -/
def applyUpserts (ops : List (Nat × Nat × Nat)) (es : List HmsEvent) : List HmsEvent :=
  ops.foldl (fun s op => upsertEvent op.1 op.2.1 op.2.2 s) es

/-- Number of distinct nonzero identities held by the store. -/
def distinctIdentityCount (es : List HmsEvent) : Nat :=
  (((es.map fun e => e.full).filter fun n => n != 0).dedup).length

/-- One element of a decoded HMS array: `some (attr, code)` when the element is an
object with unsigned-integer `attr` and `code` fields, `none` when malformed
(skipped by the `continue` branches of `parseHmsFromDoc`). -/
def HmsElem : Type := Option (Nat × Nat)

/-- A decoded report document, keeping exactly the fields `handleReportJson`,
`findHmsArray` and `parseHmsFromDoc` inspect: the two candidate `gcode_state`
locations and the three candidate `hms` array locations. -/
structure ReportDoc where
  printGcodeState : Option String
  gcodeStateTop : Option String
  hmsTop : Option (List HmsElem)
  printHms : Option (List HmsElem)
  dataHms : Option (List HmsElem)

/-- `findHmsArray`: first array among `doc["hms"]`, `doc["print"]["hms"]`,
`doc["data"]["hms"]`. -/
def findHmsArray (d : ReportDoc) : Option (List HmsElem) :=
  match d.hmsTop with
  | some a => some a
  | none =>
    match d.printHms with
    | some a => some a
    | none => d.dataHms

/-- The `gcode_state` extraction of `handleReportJson`: the field nested under
`"print"` is checked first, the top-level field second, and the previous value is
kept when neither is a string. -/
def extractGcodeState (d : ReportDoc) (prev : String) : String :=
  match d.printGcodeState with
  | some s => s
  | none =>
    match d.gcodeStateTop with
    | some s => s
    | none => prev

/-- `isIgnored`: substring test of the display code against `_ignoreNorm`,
false when the ignore list is empty. -/
def isIgnored (ignoreNorm codeStr : String) : Bool :=
  if ignoreNorm.isEmpty then false else (ignoreNorm.splitOn codeStr).length > 1

/-- `parseHmsFromDoc`: upsert every well-formed, non-ignored array element, then
unconditionally expire; when no array location holds an array, only expire. -/
def parseHmsFromDoc (d : ReportDoc) (now ttl : Nat) (ignoreNorm : String)
    (es : List HmsEvent) : List HmsEvent :=
  match findHmsArray d with
  | none => expireEvents now ttl es
  | some arr =>
    expireEvents now ttl
      (arr.foldl
        (fun acc el =>
          match el with
          | none => acc
          | some (attr, code) =>
            if isIgnored ignoreNorm (formatHmsCodeStr (packFull attr code)) then acc
            else upsertEvent attr code now acc)
        es)

/-- The state touched by `handleReportJson`: the stored print-state label and
the HMS store. -/
structure ClientState where
  gcodeState : String
  events : List HmsEvent
deriving DecidableEq

/-- `handleReportJson` on the decode result of the payload: a decode error
(`none`) returns before touching any state; a decoded document updates the
print-state label and runs the HMS parse (upserts and expiry). -/
def handleReportJson (decoded : Option ReportDoc) (now ttl : Nat)
    (ignoreNorm : String) (st : ClientState) : ClientState :=
  match decoded with
  | none => st
  | some d =>
    { gcodeState := extractGcodeState d st.gcodeState,
      events := parseHmsFromDoc d now ttl ignoreNorm st.events }

/-- The subscribe-once connection state: the `_subscribed` flag plus a counter of
transport `subscribe` actions actually issued. -/
structure ConnState where
  subscribed : Bool
  subscribeCount : Nat
deriving DecidableEq, Repr

/-- `subscribeReportOnce`: return if already subscribed, else issue one transport
subscribe and set the flag. -/
def subscribeReportOnce (s : ConnState) : ConnState :=
  if s.subscribed then s
  else { subscribed := true, subscribeCount := s.subscribeCount + 1 }

/-- The `onConnect` transport callback of `begin`: reset `_subscribed` to false,
then call `subscribeReportOnce`. -/
def onConnected (s : ConnState) : ConnState :=
  subscribeReportOnce { s with subscribed := false }

/-- Modelled from the spec: the auxiliary device counters of one report.  The
repository header (`BambuMqttClient.h`) declares the snapshot fields
`_printProgress`, `_downloadProgress`, `_bedTemp`, `_bedTarget` and their
getters, but the extraction code that fills them from a report is not present in
the source tree; per the spec each field is optional in any given report.
Temperature readings are kept as integers since no arithmetic is performed on
them. -/
structure AuxReport where
  printProgress : Option Nat
  downloadProgress : Option Nat
  bedTemp : Option Int
  bedTarget : Option Int
deriving DecidableEq, Repr

/-- Modelled from the spec: the flat device-status snapshot
(`_printProgress`, `_downloadProgress`, `_bedTemp`, `_bedTarget`), sentinel 255
meaning unknown progress. -/
structure StatusSnapshot where
  printProgress : Nat
  downloadProgress : Nat
  bedTemp : Int
  bedTarget : Int
deriving DecidableEq, Repr

/-- Modelled from the spec: ingesting the auxiliary counters of one report —
"each new report overwrites the previous value for whichever fields are present
in that report (fields absent from a given report retain their last known
value)". -/
def ingestAux (r : AuxReport) (s : StatusSnapshot) : StatusSnapshot :=
  { printProgress := r.printProgress.getD s.printProgress,
    downloadProgress := r.downloadProgress.getD s.downloadProgress,
    bedTemp := r.bedTemp.getD s.bedTemp,
    bedTarget := r.bedTarget.getD s.bedTarget }

/-- A concrete slot at the `uint32_t` counter maximum, for the overflow analysis. -/
def cEvCountMax : HmsEvent :=
  { emptyEvent with full := 1, code := 1, count := 4294967295 }

/-- A concrete stale active slot (`lastSeenMs = 0`). -/
def cEvOld : HmsEvent :=
  { emptyEvent with full := 1, code := 1, active := true }

/-- A concrete inactive slot holding identity `packFull 0 7`, seen at time 2. -/
def cEvSeven : HmsEvent :=
  { emptyEvent with
    full := 7, code := 7, severity := .Info,
    firstSeenMs := 2, lastSeenMs := 2, count := 3 }

/-- A concrete active slot of severity `Error`. -/
def cEvErr : HmsEvent :=
  { emptyEvent with full := 1, code := 1, severity := .Error, active := true }

/-- A concrete full store of two active slots with distinct identities. -/
def cStoreAllActive : List HmsEvent :=
  [{ emptyEvent with full := 1, code := 1, active := true, lastSeenMs := 3 },
   { emptyEvent with full := 2, code := 2, active := true, lastSeenMs := 1 }]

/-- A concrete full store with one active and one inactive slot. -/
def cStoreOneInactive : List HmsEvent :=
  [{ emptyEvent with full := 1, code := 1, active := true, lastSeenMs := 3 },
   { emptyEvent with full := 2, code := 2, active := false, lastSeenMs := 1 }]

/-! ### Basic lemmas about the list machinery -/

theorem modifyIdx_length (f : HmsEvent → HmsEvent) :
    ∀ (i : Nat) (es : List HmsEvent), (modifyIdx f i es).length = es.length := by
  intro i es
  induction es generalizing i with
  | nil => cases i <;> rfl
  | cons e es ih => cases i with
    | zero => rfl
    | succ n => simpa [modifyIdx] using ih n

theorem nthEvent_lt_length :
    ∀ (es : List HmsEvent) (i : Nat) (e : HmsEvent), nthEvent es i = some e → i < es.length := by
  intro es
  induction es with
  | nil => intro i e h; cases h
  | cons a es ih =>
    intro i e h
    cases i with
    | zero => simp
    | succ n =>
      have := ih n e h
      simp [List.length_cons]; omega

theorem nthEvent_exists_of_lt :
    ∀ (es : List HmsEvent) (i : Nat), i < es.length → ∃ e, nthEvent es i = some e := by
  intro es
  induction es with
  | nil => intro i h; simp at h
  | cons a es ih =>
    intro i h
    cases i with
    | zero => exact ⟨a, rfl⟩
    | succ n => exact ih n (by simp at h; omega)

theorem nthEvent_modifyIdx_self (f : HmsEvent → HmsEvent) :
    ∀ (i : Nat) (es : List HmsEvent),
      nthEvent (modifyIdx f i es) i = (nthEvent es i).map f := by
  intro i es
  induction es generalizing i with
  | nil => cases i <;> rfl
  | cons a es ih => cases i with
    | zero => rfl
    | succ n => simpa [modifyIdx, nthEvent] using ih n

theorem nthEvent_modifyIdx_ne (f : HmsEvent → HmsEvent) :
    ∀ (i j : Nat) (es : List HmsEvent), j ≠ i →
      nthEvent (modifyIdx f i es) j = nthEvent es j := by
  intro i j es
  induction es generalizing i j with
  | nil => intro _; cases i <;> rfl
  | cons a es ih =>
    intro hne
    cases i with
    | zero =>
      cases j with
      | zero => exact absurd rfl hne
      | succ m => rfl
    | succ n =>
      cases j with
      | zero => rfl
      | succ m => simpa [modifyIdx, nthEvent] using ih n m (by omega)

theorem findIdxA_eq_none_iff (p : HmsEvent → Bool) :
    ∀ es : List HmsEvent, findIdxA p es = none ↔ ∀ e ∈ es, p e = false := by
  intro es
  induction es with
  | nil => simp [findIdxA]
  | cons a es ih =>
    by_cases hp : p a
    · simp [findIdxA, hp]
    · simp [findIdxA, hp, ih]

theorem findIdxA_some_spec (p : HmsEvent → Bool) :
    ∀ (es : List HmsEvent) (i : Nat), findIdxA p es = some i →
      ∃ e, nthEvent es i = some e ∧ p e = true ∧
        ∀ j, j < i → ∀ e', nthEvent es j = some e' → p e' = false := by
  intro es
  induction es with
  | nil => intro i h; cases h
  | cons a es ih =>
    intro i h
    by_cases hp : p a
    · simp [findIdxA, hp] at h
      subst h
      exact ⟨a, rfl, hp, fun j hj => by omega⟩
    · simp [findIdxA, hp] at h
      obtain ⟨k, hk, hik⟩ := h
      obtain ⟨e, he, hpe, hbefore⟩ := ih k hk
      refine ⟨e, ?_, hpe, ?_⟩
      · rw [← hik]; exact he
      · intro j hj e' he'
        cases j with
        | zero =>
          cases he'
          simpa using hp
        | succ m =>
          exact hbefore m (by omega) e' he'

theorem findIdxA_eq_some_of (p : HmsEvent → Bool) :
    ∀ (es : List HmsEvent) (i : Nat) (e : HmsEvent),
      nthEvent es i = some e → p e = true →
      (∀ j, j < i → ∀ e', nthEvent es j = some e' → p e' = false) →
      findIdxA p es = some i := by
  intro es
  induction es with
  | nil => intro i e h; cases h
  | cons a es ih =>
    intro i e hnth hp hbefore
    cases i with
    | zero =>
      cases hnth
      simp [findIdxA, hp]
    | succ n =>
      have hpa : p a = false := hbefore 0 (by omega) a rfl
      have := ih n e hnth hp (fun j hj e' he' => hbefore (j + 1) (by omega) e' he')
      simp [findIdxA, hpa, this]

theorem mem_enumFromE :
    ∀ (es : List HmsEvent) (n i : Nat) (e : HmsEvent),
      (i, e) ∈ enumFromE n es ↔ n ≤ i ∧ nthEvent es (i - n) = some e := by
  intro es
  induction es with
  | nil =>
    intro n i e
    constructor
    · intro h; simp [enumFromE] at h
    · rintro ⟨_, h⟩; cases h
  | cons a es ih =>
    intro n i e
    constructor
    · intro h
      rcases List.mem_cons.mp h with h | h
      · obtain ⟨h1, h2⟩ := Prod.mk.injEq .. ▸ h
        refine ⟨Nat.le_of_eq h1.symm, ?_⟩
        have hz : i - n = 0 := by omega
        rw [hz]
        simp [nthEvent, h2]
      · obtain ⟨hle, hnth⟩ := (ih (n + 1) i e).mp h
        refine ⟨by omega, ?_⟩
        have : i - n = (i - (n + 1)) + 1 := by omega
        rw [this]
        exact hnth
    · rintro ⟨hle, hnth⟩
      by_cases hin : i = n
      · subst hin
        simp at hnth
        cases hnth
        exact List.mem_cons_self _ _
      · have hlt : n + 1 ≤ i := by omega
        apply List.mem_cons_of_mem
        apply (ih (n + 1) i e).mpr
        refine ⟨hlt, ?_⟩
        have : i - n = (i - (n + 1)) + 1 := by omega
        rw [this] at hnth
        exact hnth

/-! ### Lemmas about the best-age scan -/

theorem scanBest_fst_ge (now : Nat) (p : HmsEvent → Bool) :
    ∀ (l : List (Nat × HmsEvent)) (b : Nat) (o : Option Nat),
      b ≤ (scanBest now p l (b, o)).1 := by
  intro l
  induction l with
  | nil => intro b o; exact Nat.le_refl b
  | cons x rest ih =>
    intro b o
    obtain ⟨i, e⟩ := x
    by_cases hp : p e
    · by_cases hle : b ≤ wsub now e.lastSeenMs
      · simp only [scanBest, hp, hle, if_true]
        exact Nat.le_trans hle (ih _ _)
      · simp only [scanBest, hp, hle, if_true, if_false]
        exact ih b o
    · simp only [scanBest, hp, if_false]
      exact ih b o

theorem scanBest_keep_some (now : Nat) (p : HmsEvent → Bool) :
    ∀ (l : List (Nat × HmsEvent)) (b j : Nat),
      ∃ k, (scanBest now p l (b, some j)).2 = some k := by
  intro l
  induction l with
  | nil => intro b j; exact ⟨j, rfl⟩
  | cons x rest ih =>
    intro b j
    obtain ⟨i, e⟩ := x
    by_cases hp : p e
    · by_cases hle : b ≤ wsub now e.lastSeenMs
      · simp only [scanBest, hp, hle, if_true]
        exact ih _ _
      · simp only [scanBest, hp, hle, if_true, if_false]
        exact ih b j
    · simp only [scanBest, hp, if_false]
      exact ih b j

theorem scanBest_result (now : Nat) (p : HmsEvent → Bool) :
    ∀ (l : List (Nat × HmsEvent)) (b : Nat) (o : Option Nat),
      scanBest now p l (b, o) = (b, o) ∨
      ∃ i e, (i, e) ∈ l ∧ p e = true ∧
        (scanBest now p l (b, o)).1 = wsub now e.lastSeenMs ∧
        (scanBest now p l (b, o)).2 = some i := by
  intro l
  induction l with
  | nil => intro b o; exact Or.inl rfl
  | cons x rest ih =>
    intro b o
    obtain ⟨i, e⟩ := x
    by_cases hp : p e
    · by_cases hle : b ≤ wsub now e.lastSeenMs
      · simp only [scanBest, hp, hle, if_true]
        rcases ih (wsub now e.lastSeenMs) (some i) with h | ⟨i', e', hmem, hp', h1, h2⟩
        · right
          exact ⟨i, e, List.mem_cons_self _ _, hp, by rw [h], by rw [h]⟩
        · right
          exact ⟨i', e', List.mem_cons_of_mem _ hmem, hp', h1, h2⟩
      · simp only [scanBest, hp, hle, if_true, if_false]
        rcases ih b o with h | ⟨i', e', hmem, hp', h1, h2⟩
        · exact Or.inl h
        · exact Or.inr ⟨i', e', List.mem_cons_of_mem _ hmem, hp', h1, h2⟩
    · simp only [scanBest, hp, if_false]
      rcases ih b o with h | ⟨i', e', hmem, hp', h1, h2⟩
      · exact Or.inl h
      · exact Or.inr ⟨i', e', List.mem_cons_of_mem _ hmem, hp', h1, h2⟩

theorem scanBest_max (now : Nat) (p : HmsEvent → Bool) :
    ∀ (l : List (Nat × HmsEvent)) (b : Nat) (o : Option Nat) (i : Nat) (e : HmsEvent),
      (i, e) ∈ l → p e = true →
      wsub now e.lastSeenMs ≤ (scanBest now p l (b, o)).1 := by
  intro l
  induction l with
  | nil => intro b o i e h; cases h
  | cons x rest ih =>
    intro b o i e hmem hp
    obtain ⟨j, a⟩ := x
    rcases List.mem_cons.mp hmem with h | h
    · obtain ⟨h1, h2⟩ := Prod.mk.injEq .. ▸ h
      subst h2
      by_cases hle : b ≤ wsub now e.lastSeenMs
      · simp only [scanBest, hp, hle, if_true]
        exact scanBest_fst_ge now p rest _ _
      · simp only [scanBest, hp, hle, if_true, if_false]
        exact Nat.le_trans (Nat.le_of_not_le hle) (scanBest_fst_ge now p rest b o)
    · by_cases hpa : p a
      · by_cases hle : b ≤ wsub now a.lastSeenMs
        · simp only [scanBest, hpa, hle, if_true]
          exact ih _ _ i e h hp
        · simp only [scanBest, hpa, hle, if_true, if_false]
          exact ih b o i e h hp
      · simp only [scanBest, hpa, if_false]
        exact ih b o i e h hp

theorem scanBest_reaches_some (now : Nat) (p : HmsEvent → Bool) :
    ∀ (l : List (Nat × HmsEvent)) (b : Nat) (o : Option Nat) (i : Nat) (e : HmsEvent),
      (i, e) ∈ l → p e = true → b ≤ wsub now e.lastSeenMs →
      ∃ k, (scanBest now p l (b, o)).2 = some k := by
  intro l
  induction l with
  | nil => intro b o i e h; cases h
  | cons x rest ih =>
    intro b o i e hmem hp hble
    obtain ⟨j, a⟩ := x
    rcases List.mem_cons.mp hmem with h | h
    · obtain ⟨h1, h2⟩ := Prod.mk.injEq .. ▸ h
      subst h2
      simp only [scanBest, hp, hble, if_true]
      exact scanBest_keep_some now p rest _ _
    · by_cases hpa : p a
      · by_cases hle : b ≤ wsub now a.lastSeenMs
        · simp only [scanBest, hpa, hle, if_true]
          exact scanBest_keep_some now p rest _ _
        · simp only [scanBest, hpa, hle, if_true, if_false]
          exact ih b o i e h hp hble
      · simp only [scanBest, hpa, if_false]
        exact ih b o i e h hp hble

/-! ### Specification of the oldest-slot scan -/

theorem scanOldest_spec (now : Nat) (p : HmsEvent → Bool) (es : List HmsEvent) (i : Nat) :
    scanOldest now p es = some i →
    ∃ e, nthEvent es i = some e ∧ p e = true ∧
      ∀ j e', nthEvent es j = some e' → p e' = true →
        wsub now e'.lastSeenMs ≤ wsub now e.lastSeenMs := by
  intro h
  unfold scanOldest at h
  rcases scanBest_result now p (enumFromE 0 es) 0 none with hres | ⟨i', e, hmem, hp, h1, h2⟩
  · rw [hres] at h; cases h
  · rw [h2] at h
    cases h
    obtain ⟨_, hnth⟩ := (mem_enumFromE es 0 i e).mp hmem
    simp at hnth
    refine ⟨e, hnth, hp, ?_⟩
    intro j e' hnth' hp'
    have hmem' : (j, e') ∈ enumFromE 0 es :=
      (mem_enumFromE es 0 j e').mpr ⟨Nat.zero_le j, by simpa using hnth'⟩
    have := scanBest_max now p (enumFromE 0 es) 0 none j e' hmem' hp'
    rw [h1] at this
    exact this

theorem scanOldest_isSome (now : Nat) (p : HmsEvent → Bool) (es : List HmsEvent)
    (j : Nat) (e : HmsEvent) :
    nthEvent es j = some e → p e = true → ∃ i, scanOldest now p es = some i := by
  intro hnth hp
  unfold scanOldest
  have hmem : (j, e) ∈ enumFromE 0 es :=
    (mem_enumFromE es 0 j e).mpr ⟨Nat.zero_le j, by simpa using hnth⟩
  exact scanBest_reaches_some now p (enumFromE 0 es) 0 none j e hmem hp (Nat.zero_le _)

theorem scanOldest_eq_none (now : Nat) (p : HmsEvent → Bool) (es : List HmsEvent) :
    scanOldest now p es = none →
    ∀ j e, nthEvent es j = some e → p e = false := by
  intro h j e hnth
  by_contra hp
  have hp' : p e = true := by
    cases hpe : p e
    · exact absurd hpe hp
    · rfl
  obtain ⟨i, hi⟩ := scanOldest_isSome now p es j e hnth hp'
  rw [h] at hi
  cases hi

/-! ### Lemmas about the store operations -/

theorem nthEvent_map (f : HmsEvent → HmsEvent) :
    ∀ (es : List HmsEvent) (i : Nat), nthEvent (es.map f) i = (nthEvent es i).map f := by
  intro es
  induction es with
  | nil => intro i; cases i <;> rfl
  | cons a es ih =>
    intro i
    cases i with
    | zero => rfl
    | succ n => simpa [nthEvent] using ih n

theorem upsertEvent_length (attr code now : Nat) (es : List HmsEvent) :
    (upsertEvent attr code now es).length = es.length := by
  unfold upsertEvent
  cases findIdxA (fun e => e.full == packFull attr code) es with
  | some i => simp [modifyIdx_length]
  | none =>
    cases chooseSlot now es with
    | some i => simp [modifyIdx_length]
    | none => simp

theorem applyUpserts_length (ops : List (Nat × Nat × Nat)) :
    ∀ es : List HmsEvent, (applyUpserts ops es).length = es.length := by
  induction ops with
  | nil => intro es; rfl
  | cons op ops ih =>
    intro es
    show (applyUpserts ops (upsertEvent op.1 op.2.1 op.2.2 es)).length = es.length
    rw [ih, upsertEvent_length]

theorem distinctIdentityCount_le_length (es : List HmsEvent) :
    distinctIdentityCount es ≤ es.length := by
  unfold distinctIdentityCount
  calc ((((es.map fun e => e.full).filter fun n => n != 0).dedup)).length
      ≤ ((es.map fun e => e.full).filter fun n => n != 0).length :=
        (List.dedup_sublist _).length_le
    _ ≤ (es.map fun e => e.full).length := List.length_filter_le _ _
    _ = es.length := List.length_map _ _

theorem expireStep_idem (now t : Nat) (e : HmsEvent) :
    expireStep now t (expireStep now t e) = expireStep now t e := by
  unfold expireStep
  by_cases h : e.full ≠ 0 ∧ e.active = true ∧ wsub now e.lastSeenMs > t
  · rw [if_pos h]
    rw [if_neg]
    intro hcon
    exact Bool.false_ne_true hcon.2.1
  · rw [if_neg h, if_neg h]

/-! ### Lemmas about the top-severity fold -/

theorem sevFold_rank_ge :
    ∀ (es : List HmsEvent) (acc : Severity), acc.rank ≤ (es.foldl sevStep acc).rank := by
  intro es
  induction es with
  | nil => intro acc; exact Nat.le_refl _
  | cons a es ih =>
    intro acc
    refine Nat.le_trans ?_ (ih (sevStep acc a))
    unfold sevStep
    by_cases h : a.active && acc.rank < a.severity.rank
    · rw [if_pos h]
      exact Nat.le_of_lt (of_decide_eq_true (Bool.and_eq_true .. ▸ h).2)
    · rw [if_neg h]

theorem sevFold_result :
    ∀ (es : List HmsEvent) (acc : Severity),
      es.foldl sevStep acc = acc ∨
      ∃ e ∈ es, e.active = true ∧ es.foldl sevStep acc = e.severity := by
  intro es
  induction es with
  | nil => intro acc; exact Or.inl rfl
  | cons a es ih =>
    intro acc
    rw [List.foldl_cons]
    by_cases h : a.active && acc.rank < a.severity.rank
    · have hstep : sevStep acc a = a.severity := by unfold sevStep; rw [if_pos h]
      rw [hstep]
      rcases ih a.severity with hr | ⟨e, hmem, hact, hr⟩
      · right
        exact ⟨a, List.mem_cons_self _ _, (Bool.and_eq_true .. ▸ h).1, hr⟩
      · right
        exact ⟨e, List.mem_cons_of_mem _ hmem, hact, hr⟩
    · have hstep : sevStep acc a = acc := by unfold sevStep; rw [if_neg h]
      rw [hstep]
      rcases ih acc with hr | ⟨e, hmem, hact, hr⟩
      · exact Or.inl hr
      · exact Or.inr ⟨e, List.mem_cons_of_mem _ hmem, hact, hr⟩

theorem sevFold_max :
    ∀ (es : List HmsEvent) (acc : Severity) (e : HmsEvent),
      e ∈ es → e.active = true → e.severity.rank ≤ (es.foldl sevStep acc).rank := by
  intro es
  induction es with
  | nil => intro acc e h; cases h
  | cons a es ih =>
    intro acc e hmem hact
    rcases List.mem_cons.mp hmem with h | h
    · subst h
      show e.severity.rank ≤ (es.foldl sevStep (sevStep acc e)).rank
      refine Nat.le_trans ?_ (sevFold_rank_ge es (sevStep acc e))
      unfold sevStep
      rw [hact]
      by_cases hlt : acc.rank < e.severity.rank
      · simp [hlt]
      · simp [hlt]
        omega
    · exact ih (sevStep acc a) e h hact

/-- A severity of rank zero is `None`. -/
theorem Severity.rank_eq_zero (s : Severity) : s.rank = 0 → s = Severity.None := by
  cases s <;> simp [Severity.rank]

/-- Writing a fresh event into slot `j` leaves every slot's identity unchanged or
equal to the packed identity being written. -/
theorem nthEvent_write_new_full (attr code now : Nat) (es : List HmsEvent) (j i : Nat) :
    (nthEvent (modifyIdx (fun _ => newEvent attr code now) j es) i).map (fun e => e.full)
        = (nthEvent es i).map (fun e => e.full) ∨
    (nthEvent (modifyIdx (fun _ => newEvent attr code now) j es) i).map (fun e => e.full)
        = some (packFull attr code) := by
  by_cases hij : i = j
  · subst hij
    rw [nthEvent_modifyIdx_self]
    cases hn : nthEvent es i with
    | none => left; rfl
    | some e => right; simp [newEvent]
  · rw [nthEvent_modifyIdx_ne _ _ _ _ hij]
    left; rfl

/-- When no free slot exists, `chooseSlot` is the inactive-slot scan when that
scan assigns a slot, and the all-slots scan otherwise. -/
theorem chooseSlot_cases (now : Nat) (es : List HmsEvent) (i : Nat)
    (hfree : findIdxA (fun e => e.full == 0) es = none)
    (hchoose : chooseSlot now es = some i) :
    scanOldest now (fun e => !e.active) es = some i ∨
    (scanOldest now (fun e => !e.active) es = none ∧
      scanOldest now (fun _ => true) es = some i) := by
  unfold chooseSlot at hchoose
  rw [hfree] at hchoose
  rcases hs : scanOldest now (fun e => !e.active) es with _ | j
  · rw [hs] at hchoose
    exact Or.inr ⟨rfl, hchoose⟩
  · rw [hs] at hchoose
    exact Or.inl hchoose

/-! ### The claims -/

/-- Claim C8: a report payload whose body fails to decode aborts processing of
that report: the stored print-state label and every alert slot are left exactly
unchanged, and in particular no expire pass runs. -/
theorem claim8_decode_error_atomic (now ttl : Nat) (ignoreNorm : String) (st : ClientState) :
    handleReportJson none now ttl ignoreNorm st = st :=
  rfl

/-- Claim C5 (spec-modelled): ingesting the auxiliary device counters of a report
overwrites exactly the fields present in that report and retains the previous
value of every absent field. -/
theorem claim5_aux_snapshot (r : AuxReport) (s : StatusSnapshot) :
    (∀ v, r.printProgress = some v → (ingestAux r s).printProgress = v) ∧
    (r.printProgress = none → (ingestAux r s).printProgress = s.printProgress) ∧
    (∀ v, r.downloadProgress = some v → (ingestAux r s).downloadProgress = v) ∧
    (r.downloadProgress = none → (ingestAux r s).downloadProgress = s.downloadProgress) ∧
    (∀ v, r.bedTemp = some v → (ingestAux r s).bedTemp = v) ∧
    (r.bedTemp = none → (ingestAux r s).bedTemp = s.bedTemp) ∧
    (∀ v, r.bedTarget = some v → (ingestAux r s).bedTarget = v) ∧
    (r.bedTarget = none → (ingestAux r s).bedTarget = s.bedTarget) := by
  refine ⟨?_, ?_, ?_, ?_, ?_, ?_, ?_, ?_⟩ <;>
    first
      | (intro v h; simp [ingestAux, h])
      | (intro h; simp [ingestAux, h])

/-- Witness for C5 at a concrete report and snapshot. -/
theorem claim5_aux_snapshot_witness :
    (ingestAux ⟨some 42, none, some 60, none⟩ ⟨255, 255, 0, 0⟩).printProgress = 42 ∧
    (ingestAux ⟨some 42, none, some 60, none⟩ ⟨255, 255, 0, 0⟩).downloadProgress = 255 ∧
    (ingestAux ⟨some 42, none, some 60, none⟩ ⟨255, 255, 0, 0⟩).bedTemp = 60 ∧
    (ingestAux ⟨some 42, none, some 60, none⟩ ⟨255, 255, 0, 0⟩).bedTarget = 0 := by
  have h := claim5_aux_snapshot ⟨some 42, none, some 60, none⟩ ⟨255, 255, 0, 0⟩
  exact ⟨h.1 42 rfl, h.2.2.2.1 rfl, h.2.2.2.2.1 60 rfl, h.2.2.2.2.2.2.2 rfl⟩

/-- Counterexample to claim C6 as stated: two consecutive transport connected
notifications issue two subscribe actions, not at most one, because the
`onConnect` handler resets the subscription flag before calling
`subscribeReportOnce`. -/
theorem claim6_counterexample :
    ¬ ((onConnected (onConnected { subscribed := false, subscribeCount := 0 })).subscribeCount ≤ 1) := by
  decide

/-- Claim C6 (amended): every transport connected notification issues exactly one
subscribe action (the flag is reset first, so the guarded subscribe always
fires), and `subscribeReportOnce` itself is idempotent while the flag stays set:
without an intervening reset a repeated call issues no further subscribe. -/
theorem claim6_subscribe_per_connect (s : ConnState) :
    (onConnected s).subscribeCount = s.subscribeCount + 1 ∧
    (onConnected s).subscribed = true ∧
    subscribeReportOnce (subscribeReportOnce s) = subscribeReportOnce s := by
  refine ⟨?_, ?_, ?_⟩
  · simp [onConnected, subscribeReportOnce]
  · simp [onConnected, subscribeReportOnce]
  · by_cases h : s.subscribed <;> simp [subscribeReportOnce, h]

/-- Counterexample to claim C7 as stated: on the freshly allocated store,
`upsertEvent(0, 0, now)` marks the first free slot active, so the externally
observable aggregate `countActiveTotal` changes from 0 to 1. -/
theorem claim7_counterexample :
    countActiveTotal emptyStore = 0 ∧
    countActiveTotal (upsertEvent 0 0 5 emptyStore) = 1 ∧
    countActiveTotal (upsertEvent 0 0 5 emptyStore) ≠ countActiveTotal emptyStore := by
  refine ⟨by decide, by decide, by decide⟩

/-- Claim C7 (amended): `upsertEvent(0, 0, now)` can never track the all-zero
alert as a distinct entry: after the call every slot's stored identity is either
unchanged or the zero empty-slot sentinel, so no slot ever holds `pack(0,0)` as a
nonzero tracked identity — but the call does activate a zero-identity slot, so
the aggregates (`countActiveTotal`, the active snapshot) are not unaffected in
general. -/
theorem claim7_zero_identity_never_tracked (es : List HmsEvent) (now i : Nat) :
    (nthEvent (upsertEvent 0 0 now es) i).map (fun e => e.full)
        = (nthEvent es i).map (fun e => e.full) ∨
    (nthEvent (upsertEvent 0 0 now es) i).map (fun e => e.full) = some 0 := by
  have hpack : packFull 0 0 = 0 := by decide
  unfold upsertEvent
  simp only [hpack]
  cases hf : findIdxA (fun e => e.full == 0) es with
  | some j =>
    by_cases hij : i = j
    · subst hij
      rw [nthEvent_modifyIdx_self]
      cases hn : nthEvent es i with
      | none => left; rfl
      | some e => left; simp [refreshEvent]
    · rw [nthEvent_modifyIdx_ne _ _ _ _ hij]
      left; rfl
  | none =>
    unfold chooseSlot
    rw [hf]
    cases hs : scanOldest now (fun e => !e.active) es with
    | some j =>
      have := nthEvent_write_new_full 0 0 now es j i
      rw [hpack] at this
      exact this
    | none =>
      cases ht : scanOldest now (fun _ => true) es with
      | some j =>
        have := nthEvent_write_new_full 0 0 now es j i
        rw [hpack] at this
        exact this
      | none => left; rfl

/-- Counterexample to claim C4 as stated: when both the top-level and the nested
`"print"` locations carry a print-state string, the handler stores the nested
one, not the top-level one — the nested field is checked first. -/
theorem claim4_counterexample :
    extractGcodeState
        { printGcodeState := some "PAUSE", gcodeStateTop := some "RUNNING",
          hmsTop := none, printHms := none, dataHms := none } "IDLE" = "PAUSE" ∧
    ("PAUSE" : String) ≠ "RUNNING" := by
  exact ⟨rfl, by decide⟩

/-- Claim C4 (amended): the print-state label is extracted by checking the field
nested under the `"print"` object first and the top-level field second, the
first match winning; if neither is present the previously stored label is left
unchanged.  The report handler stores exactly this extraction. -/
theorem claim4_print_state_order (d : ReportDoc) (prev : String) :
    (∀ s, d.printGcodeState = some s → extractGcodeState d prev = s) ∧
    (d.printGcodeState = none →
      ∀ s, d.gcodeStateTop = some s → extractGcodeState d prev = s) ∧
    (d.printGcodeState = none → d.gcodeStateTop = none →
      extractGcodeState d prev = prev) ∧
    (∀ (now ttl : Nat) (ignoreNorm : String) (st : ClientState),
      (handleReportJson (some d) now ttl ignoreNorm st).gcodeState
        = extractGcodeState d st.gcodeState) := by
  refine ⟨?_, ?_, ?_, fun _ _ _ _ => rfl⟩
  · intro s h; simp [extractGcodeState, h]
  · intro h s h'; simp [extractGcodeState, h, h']
  · intro h h'; simp [extractGcodeState, h, h']

/-- Witness for C4 (amended) at concrete documents. -/
theorem claim4_print_state_order_witness :
    extractGcodeState
        { printGcodeState := some "PAUSE", gcodeStateTop := none,
          hmsTop := none, printHms := none, dataHms := none } "IDLE" = "PAUSE" ∧
    extractGcodeState
        { printGcodeState := none, gcodeStateTop := some "RUNNING",
          hmsTop := none, printHms := none, dataHms := none } "IDLE" = "RUNNING" ∧
    extractGcodeState
        { printGcodeState := none, gcodeStateTop := none,
          hmsTop := none, printHms := none, dataHms := none } "IDLE" = "IDLE" := by
  refine ⟨(claim4_print_state_order _ "IDLE").1 "PAUSE" rfl,
          (claim4_print_state_order _ "IDLE").2.1 rfl "RUNNING" rfl,
          (claim4_print_state_order _ "IDLE").2.2.1 rfl rfl⟩

/-- Claim C9: `topSeverity()` is `None` when no slot is active, otherwise the
maximum severity rank among active slots (attained by some active slot), and
`hasProblem()` holds exactly when `topSeverity()` is at least `Warning`. -/
theorem claim9_top_severity (es : List HmsEvent) :
    ((∀ e ∈ es, e.active = false) → topSeverity es = Severity.None) ∧
    ((∃ e ∈ es, e.active = true) →
      (∃ e ∈ es, e.active = true ∧ topSeverity es = e.severity) ∧
      ∀ e ∈ es, e.active = true → e.severity.rank ≤ (topSeverity es).rank) ∧
    (hasProblem es = true ↔ Severity.Warning.rank ≤ (topSeverity es).rank) := by
  refine ⟨?_, ?_, ?_⟩
  · intro hall
    rcases sevFold_result es Severity.None with h | ⟨e, hmem, hact, _⟩
    · exact h
    · rw [hall e hmem] at hact; cases hact
  · rintro ⟨e0, hmem0, hact0⟩
    constructor
    · rcases sevFold_result es Severity.None with h | ⟨e, hmem, hact, hr⟩
      · have hle := sevFold_max es Severity.None e0 hmem0 hact0
        rw [h] at hle
        have h0 : e0.severity = Severity.None :=
          Severity.rank_eq_zero _ (Nat.le_zero.mp hle)
        exact ⟨e0, hmem0, hact0, by
          show es.foldl sevStep Severity.None = e0.severity
          rw [h, h0]⟩
      · exact ⟨e, hmem, hact, hr⟩
    · intro e hmem hact
      exact sevFold_max es Severity.None e hmem hact
  · unfold hasProblem
    exact decide_eq_true_iff

/-- Witness for C9 on a concrete store with one active `Error` slot. -/
theorem claim9_top_severity_witness :
    (∃ e ∈ [cEvErr], e.active = true ∧ topSeverity [cEvErr] = e.severity) ∧
    (∀ e ∈ [cEvErr], e.active = true → e.severity.rank ≤ (topSeverity [cEvErr]).rank) ∧
    hasProblem [cEvErr] = true := by
  have h := claim9_top_severity [cEvErr]
  have hex : ∃ e ∈ [cEvErr], e.active = true :=
    ⟨cEvErr, List.mem_singleton.mpr rfl, rfl⟩
  exact ⟨(h.2.1 hex).1, (h.2.1 hex).2, (h.2.2).mpr (by decide)⟩

/-- Counterexample to claim C2 as stated: with `ttl = 0`, the occupied active
slot of age `5 > ttl` is not deactivated — the code substitutes the default
20000 for a zero TTL. -/
theorem claim2_counterexample :
    cEvOld.full ≠ 0 ∧ cEvOld.active = true ∧ wsub 5 cEvOld.lastSeenMs > 0 ∧
    nthEvent (expireEvents 5 0 [cEvOld]) 0 = some cEvOld := by
  exact ⟨by decide, rfl, by decide, by decide⟩

/-- Claim C2 (amended): for a nonzero `ttl` (a zero stored TTL is replaced by the
default 20000), `expireEvents now ttl` sets `active := false` on exactly the
occupied slots that are active with `now - lastSeenAt > ttl`, changes no other
field of any slot, and is idempotent. -/
theorem claim2_expire_exact (now ttl : Nat) (es : List HmsEvent) (httl : 0 < ttl) :
    (∀ i e, nthEvent es i = some e →
      (e.full ≠ 0 ∧ e.active = true ∧ wsub now e.lastSeenMs > ttl →
        nthEvent (expireEvents now ttl es) i = some { e with active := false }) ∧
      (¬(e.full ≠ 0 ∧ e.active = true ∧ wsub now e.lastSeenMs > ttl) →
        nthEvent (expireEvents now ttl es) i = some e)) ∧
    expireEvents now ttl (expireEvents now ttl es) = expireEvents now ttl es := by
  have ht : (if ttl = 0 then 20000 else ttl) = ttl := if_neg (by omega)
  constructor
  · intro i e hnth
    constructor
    · intro hc
      unfold expireEvents
      rw [ht, nthEvent_map, hnth]
      show some (expireStep now ttl e) = _
      unfold expireStep
      rw [if_pos hc]
    · intro hc
      unfold expireEvents
      rw [ht, nthEvent_map, hnth]
      show some (expireStep now ttl e) = _
      unfold expireStep
      rw [if_neg hc]
  · unfold expireEvents
    rw [ht, List.map_map]
    congr 1
    funext e
    show expireStep now ttl (expireStep now ttl e) = expireStep now ttl e
    exact expireStep_idem now ttl e

/-- Witness for C2 (amended): a stale slot is deactivated at `now = 30000`,
`ttl = 20000`, and a second pass changes nothing. -/
theorem claim2_expire_exact_witness :
    nthEvent (expireEvents 30000 20000 [cEvOld]) 0 = some { cEvOld with active := false } ∧
    expireEvents 30000 20000 (expireEvents 30000 20000 [cEvOld])
      = expireEvents 30000 20000 [cEvOld] := by
  have h := claim2_expire_exact 30000 20000 [cEvOld] (by decide)
  exact ⟨(h.1 0 cEvOld rfl).1 ⟨by decide, rfl, by decide⟩, h.2⟩

/-- Counterexample to claim C3 as stated: at the `uint32_t` counter maximum, a
repeated upsert wraps `occurrenceCount` to 0 instead of strictly increasing it
by one. -/
theorem claim3_counterexample :
    nthEvent (upsertEvent 0 1 5 [cEvCountMax]) 0
        = some { cEvCountMax with lastSeenMs := 5, count := 0, active := true } ∧
    ¬ (nthEvent (upsertEvent 0 1 5 [cEvCountMax]) 0
        = some { cEvCountMax with
                 lastSeenMs := 5, count := cEvCountMax.count + 1, active := true }) := by
  exact ⟨by decide, by decide⟩

/-- Claim C3 (amended): a repeated upsert of an identity held by slot `i` (the
first slot holding it) sets that slot's `lastSeenAt` to `now`, increments its
`occurrenceCount` modulo `2^32` (so by exactly one whenever the counter is below
the `uint32_t` maximum), forces `active := true`, leaves its `firstSeenAt`,
identity, severity and display code unchanged, and changes no other slot. -/
theorem claim3_repeat_upsert (es : List HmsEvent) (i : Nat) (e : HmsEvent)
    (attr code now : Nat)
    (hnow : now < U32)
    (hnth : nthEvent es i = some e)
    (hfull : e.full = packFull attr code)
    (hfirst : ∀ j, j < i → ∀ e', nthEvent es j = some e' → e'.full ≠ packFull attr code) :
    nthEvent (upsertEvent attr code now es) i
        = some { e with lastSeenMs := now, count := (e.count + 1) % U32, active := true } ∧
    ∀ j, j ≠ i → nthEvent (upsertEvent attr code now es) j = nthEvent es j := by
  have hfind : findIdxA (fun e => e.full == packFull attr code) es = some i := by
    apply findIdxA_eq_some_of _ es i e hnth (by simp [hfull])
    intro j hj e' he'
    have hne := hfirst j hj e' he'
    simp [hne]
  constructor
  · simp only [upsertEvent, hfind]
    rw [nthEvent_modifyIdx_self, hnth]
    simp [refreshEvent, Nat.mod_eq_of_lt hnow]
  · intro j hj
    simp only [upsertEvent, hfind]
    exact nthEvent_modifyIdx_ne _ _ _ _ hj

/-- Witness for C3 (amended) on a concrete one-slot store holding identity 7. -/
theorem claim3_repeat_upsert_witness :
    nthEvent (upsertEvent 0 7 10 [cEvSeven]) 0
        = some { cEvSeven with
                 lastSeenMs := 10, count := (cEvSeven.count + 1) % U32, active := true } := by
  exact (claim3_repeat_upsert [cEvSeven] 0 cEvSeven 0 7 10 (by decide) rfl (by decide)
    (fun j hj => absurd hj (Nat.not_lt_zero j))).1

/-- Claim C10: whenever `upsertEvent` reaches the allocation path on a nonempty
store (no slot matches the identity and no free slot exists), the eviction scan
selects a slot index inside the store — the fallback scan necessarily assigns a
slot because its `age >= bestAge` comparison holds on the first iteration — so
the final slot write happens at an in-range index. -/
theorem claim10_eviction_in_range (es : List HmsEvent) (now attr code : Nat)
    (hlen : 0 < es.length)
    (hmatch : findIdxA (fun e => e.full == packFull attr code) es = none)
    (hfree : findIdxA (fun e => e.full == 0) es = none) :
    ∃ i, chooseSlot now es = some i ∧ i < es.length ∧
      upsertEvent attr code now es = modifyIdx (fun _ => newEvent attr code now) i es := by
  have hchoose : ∃ i, chooseSlot now es = some i ∧ i < es.length := by
    unfold chooseSlot
    rw [hfree]
    rcases hs : scanOldest now (fun e => !e.active) es with _ | j
    · obtain ⟨e0, h0⟩ := nthEvent_exists_of_lt es 0 hlen
      obtain ⟨k, hk⟩ := scanOldest_isSome now (fun _ => true) es 0 e0 h0 rfl
      obtain ⟨e, hnth, _, _⟩ := scanOldest_spec now (fun _ => true) es k hk
      exact ⟨k, hk, nthEvent_lt_length es k e hnth⟩
    · obtain ⟨e, hnth, _, _⟩ := scanOldest_spec now (fun e => !e.active) es j hs
      exact ⟨j, rfl, nthEvent_lt_length es j e hnth⟩
  obtain ⟨i, hi, hlt⟩ := hchoose
  refine ⟨i, hi, hlt, ?_⟩
  simp only [upsertEvent, hmatch, hi]

/-- Witness for C10 on a concrete full store of two active slots. -/
theorem claim10_eviction_in_range_witness :
    ∃ i, chooseSlot 9 cStoreAllActive = some i ∧ i < cStoreAllActive.length ∧
      upsertEvent 0 3 9 cStoreAllActive
        = modifyIdx (fun _ => newEvent 0 3 9) i cStoreAllActive :=
  claim10_eviction_in_range cStoreAllActive 9 0 3 (by decide) (by decide) (by decide)

/-- Claim C1: any sequence of upserts on the freshly allocated store leaves at
most 20 distinct identities stored, and when no free slot exists the slot chosen
for a new identity is an inactive slot of maximal `now - lastSeenAt` age; when no
inactive slot exists it is a slot of maximal age among all slots, regardless of
its active flag. -/
theorem claim1_capacity_and_eviction :
    (∀ ops : List (Nat × Nat × Nat),
      distinctIdentityCount (applyUpserts ops emptyStore) ≤ 20) ∧
    (∀ (es : List HmsEvent) (now attr code i : Nat),
      findIdxA (fun e => e.full == packFull attr code) es = none →
      findIdxA (fun e => e.full == 0) es = none →
      chooseSlot now es = some i →
      upsertEvent attr code now es = modifyIdx (fun _ => newEvent attr code now) i es ∧
      ∃ e, nthEvent es i = some e ∧
        ((∃ j e', nthEvent es j = some e' ∧ e'.active = false) →
          e.active = false ∧
          ∀ j e', nthEvent es j = some e' → e'.active = false →
            wsub now e'.lastSeenMs ≤ wsub now e.lastSeenMs) ∧
        ((∀ j e', nthEvent es j = some e' → e'.active = true) →
          ∀ j e', nthEvent es j = some e' →
            wsub now e'.lastSeenMs ≤ wsub now e.lastSeenMs)) := by
  constructor
  · intro ops
    have h1 := distinctIdentityCount_le_length (applyUpserts ops emptyStore)
    rw [applyUpserts_length] at h1
    simpa [emptyStore] using h1
  · intro es now attr code i hmatch hfree hchoose
    refine ⟨by simp only [upsertEvent, hmatch, hchoose], ?_⟩
    rcases chooseSlot_cases now es i hfree hchoose with hinact | ⟨hnone, hall⟩
    · obtain ⟨e, hnth, hpe, hmax⟩ := scanOldest_spec now (fun e => !e.active) es i hinact
      have hact : e.active = false := by simpa using hpe
      refine ⟨e, hnth, ?_, ?_⟩
      · intro _
        refine ⟨hact, ?_⟩
        intro j e' hj hinactj
        exact hmax j e' hj (by simp [hinactj])
      · intro hallact j e' hj
        exact absurd (hallact i e hnth) (by simp [hact])
    · obtain ⟨e, hnth, _, hmax⟩ := scanOldest_spec now (fun _ => true) es i hall
      have hallactive : ∀ j e', nthEvent es j = some e' → e'.active = true := fun j e' hj => by
        simpa using scanOldest_eq_none now (fun e => !e.active) es hnone j e' hj
      refine ⟨e, hnth, ?_, ?_⟩
      · rintro ⟨j, e', hj, hinactj⟩
        rw [hallactive j e' hj] at hinactj
        cases hinactj
      · intro _ j e' hj
        exact hmax j e' hj rfl

/-- Witness for C1 at a concrete upsert sequence and a concrete full store with
one inactive slot. -/
theorem claim1_capacity_and_eviction_witness :
    distinctIdentityCount (applyUpserts [(0, 1, 5)] emptyStore) ≤ 20 ∧
    upsertEvent 0 3 9 cStoreOneInactive
      = modifyIdx (fun _ => newEvent 0 3 9) 1 cStoreOneInactive := by
  have h := claim1_capacity_and_eviction
  have h2 := h.2 cStoreOneInactive 9 0 3 1 (by decide) (by decide) (by decide)
  exact ⟨h.1 [(0, 1, 5)], h2.1⟩

end BambuBeacon
